import Mathlib

/-!
Verification of the kleisli-ts arrow core.

The development shallowly embeds the arrow representation of the
repository.  The central variant modelled here is the
`MonadThrow2`-parameterized class (file `kleisli-io.ts`, given as
`src/unnamed/part_002`), instantiated at the fp-ts `either` effect
context — the instantiation used by the repository test-suite
(`getInstancesFor(either)` in `kleisli-io.test.ts`).  Two further
variants are modelled where claims need them: the legacy
`IOEither`-specialized `Impure.run` of `src/src/index.ts` (`runTS1`
below) and the `Monad1`-based `BiKleisli` representation of
`src/unnamed/part_001` instantiated at the identity monad (`BiKArrow`
below).

A JavaScript function can return, raise, or fail to terminate, and it
can mutate the heap.  The model therefore threads an explicit state of
type `σ` through every underlying function and distinguishes the
outcome of an evaluation with `JsRes`: a normal return, a raised value
(`Fault` — either a `KleisliIOError` instance carrying a domain error of
type `E`, or any other raised value, identified by a numeric code), or
divergence.  The source builds its while-loops by unbounded
iteration/self-reference; the model makes the missing termination guarantee explicit
through a fuel parameter, with `JsRes.div` standing for "did not finish
within the fuel"; claims about terminating runs are stated for every
sufficient fuel.
-/

namespace KleisliTS

/-- A value raised by a JavaScript function: either an instance of the
internal `KleisliIOError` wrapper class carrying a domain error of type
`E`, or any other raised value (a defect), identified by a code. -/
inductive Fault (E : Type) : Type
  | kleisliErr : E → Fault E
  | raw : Nat → Fault E
  deriving DecidableEq

/-- Outcome of evaluating a JavaScript expression: a normal return, a
raised `Fault`, or divergence. -/
inductive JsRes (E α : Type) : Type
  | ret : α → JsRes E α
  | throwF : Fault E → JsRes E α
  | div : JsRes E α
  deriving DecidableEq

/-- Model of a JavaScript function from `A` to `B` over the mutable
state `σ`: it consumes the state and produces an outcome together with
the updated state. -/
abbrev ImpFn (σ E A B : Type) := A → σ → JsRes E B × σ

/-- Model of a plain, total, effect-free JavaScript function. -/
def pureFn (f : A → B) : ImpFn σ E A B := fun a s => (.ret (f a), s)

/-- The arrow representation of `kleisli-io.ts` (class `KleisliIO` with
its three subclasses), instantiated at the fp-ts `either` effect
context, so a `Pure` node stores a function producing an
`Except E B` value (fp-ts `Either<E, B>`), an `Impure` node stores a
plain function from `A` to `B` that may raise, and a `Compose` node
stores a right arrow `g` and a left arrow `f`. -/
inductive KArrow (σ E : Type) : Type → Type → Type 1
  | Pure : {A B : Type} → (ImpFn σ E A (Except E B)) → KArrow σ E A B
  | Impure : {A B : Type} → ImpFn σ E A B → KArrow σ E A B
  | Compose : {A B C : Type} → KArrow σ E B C → KArrow σ E A B → KArrow σ E A C

/-- The variant tag of an arrow (the `tag` field of the source class). -/
inductive Tag : Type
  | Pure
  | Impure
  | Compose
  deriving DecidableEq

/-- Reads the `tag` field of an arrow node. -/
def tag : KArrow σ E A B → Tag
  | .Pure _ => .Pure
  | .Impure _ => .Impure
  | .Compose _ _ => .Compose

/-- fp-ts `either.chain(ma, k)` with a continuation `k` that is itself
an effectful JavaScript function: a `left` is returned unchanged and
the continuation is not called; on a `right` the continuation runs (and
whatever it raises propagates). -/
def eitherChain (ma : Except E β) (k : β → σ → JsRes E (Except E γ) × σ) (s : σ) :
    JsRes E (Except E γ) × σ :=
  match ma with
  | .error e => (.ret (.error e), s)
  | .ok b => k b s

/-- fp-ts `either.map`. -/
def eitherMap (ma : Except E γ) (f : γ → δ) : Except E δ :=
  match ma with
  | .error e => .error e
  | .ok c => .ok (f c)

/-- The `run` interpretation of `kleisli-io.ts` at the `either`
context.  `Pure.run` applies the stored function.  `Impure.run` applies
the stored function inside a try/catch: a normal return `b` becomes
`M.of(b)` (a `right`), a raised `KleisliIOError` becomes
`M.throwError(e.error)` (a `left`), and any other raised value is
re-raised.  `Compose.run` is `M.chain(f.run(a), g.run)`; a value raised
while running `f` propagates. -/
def run : KArrow σ E A B → A → σ → JsRes E (Except E B) × σ
  | .Pure f, a, s => f a s
  | .Impure f, a, s =>
    match f a s with
    | (.ret b, s1) => (.ret (.ok b), s1)
    | (.throwF (.kleisliErr e), s1) => (.ret (.error e), s1)
    | (.throwF (.raw d), s1) => (.throwF (.raw d), s1)
    | (.div, s1) => (.div, s1)
  | .Compose g f, a, s =>
    match run f a s with
    | (.ret mb, s1) => eitherChain mb (fun b => run g b) s1
    | (.throwF t, s1) => (.throwF t, s1)
    | (.div, s1) => (.div, s1)

/-- fp-ts `compose(g, f)` applied to the two underlying functions of two
`Impure` nodes — ordinary function composition under JavaScript
semantics: run `f`; a raise or divergence aborts, otherwise feed the
result to `g`. -/
def jsComp (g : ImpFn σ E B C) (f : ImpFn σ E A B) : ImpFn σ E A C :=
  fun a s =>
    match f a s with
    | (.ret b, s1) => g b s1
    | (.throwF t, s1) => (.throwF t, s1)
    | (.div, s1) => (.div, s1)

/-- `composeK(second, first)` of `kleisli-io.ts`: when both operands are
`Impure`, a new `Impure` node whose function is the composition of the
two underlying functions; otherwise a `Compose` node. -/
def composeK : KArrow σ E B C → KArrow σ E A B → KArrow σ E A C
  | .Impure g, .Impure f => .Impure (jsComp g f)
  | g, f => .Compose g f

/-- `pipeK(first, second)` of `kleisli-io.ts`. -/
def pipeK (f : KArrow σ E A B) (g : KArrow σ E B C) : KArrow σ E A C :=
  composeK g f

/-- `pure(M)(f)` of `kleisli-io.ts`. -/
def pure (f : ImpFn σ E A (Except E B)) : KArrow σ E A B :=
  .Pure f

/-- `liftK(M)(f)` of `kleisli-io.ts`: wraps the function unchanged in an
`Impure` node. -/
def liftK (f : ImpFn σ E A B) : KArrow σ E A B :=
  .Impure f

/-- `fail(M)(e)` of `kleisli-io.ts`: an `Impure` node whose function
raises `new KleisliIOError(e)` regardless of input. -/
def fail (e : E) : KArrow σ E A B :=
  .Impure (fun _ s => (.throwF (.kleisliErr e), s))

/-- `identity(M)()` of `kleisli-io.ts`: `liftK(x => x)`. -/
def identity : KArrow σ E A A :=
  liftK (pureFn fun x => x)

/-- `of(M)(b)` of `kleisli-io.ts`: `liftK(() => b)`. -/
def of (b : B) : KArrow σ E A B :=
  liftK (pureFn fun _ => b)

/-- `chain(M)(fa, f)` of `kleisli-io.ts` (also the `chain` method):
`pure(a => M.chain(fa.run(a), b => f(b).run(a)))` — note the
continuation runs `f(b)` on the original input `a`. -/
def chain (fa : KArrow σ E A B) (f : B → KArrow σ E A C) : KArrow σ E A C :=
  .Pure (fun a s =>
    match run fa a s with
    | (.ret mb, s1) => eitherChain mb (fun b => run (f b) a) s1
    | (.throwF t, s1) => (.throwF t, s1)
    | (.div, s1) => (.div, s1))

/-- `switchK(M)(l, r)` of `kleisli-io.ts`: when both branches are
`Impure`, a fused `Impure` node folding the either-shaped input into
the matching underlying function; otherwise a `Pure` node folding the
input into the matching `run`. -/
def switchK : KArrow σ E A B → KArrow σ E C B → KArrow σ E (A ⊕ C) B
  | .Impure l, .Impure r =>
    .Impure (fun a s =>
      match a with
      | .inl al => l al s
      | .inr ar => r ar s)
  | l, r =>
    .Pure (fun a s =>
      match a with
      | .inl al => run l al s
      | .inr ar => run r ar s)

/-- `zipWith(M)(l, r)(f)` of `kleisli-io.ts`: when both operands are
`Impure`, a fused `Impure` node evaluating `f([l._run(a), r._run(a)])`
— the left function first, then the right one, then `f`, with a raise
aborting the rest of the expression; otherwise a `Pure` node running
`M.chain(l.run(a), b => M.map(r.run(a), c => f([b, c])))`. -/
def zipWith (l : KArrow σ E A B) (r : KArrow σ E A C) (f : B × C → D) : KArrow σ E A D :=
  match l, r with
  | .Impure lf, .Impure rf =>
    .Impure (fun a s =>
      match lf a s with
      | (.ret b, s1) =>
        match rf a s1 with
        | (.ret c, s2) => (.ret (f (b, c)), s2)
        | (.throwF t, s2) => (.throwF t, s2)
        | (.div, s2) => (.div, s2)
      | (.throwF t, s1) => (.throwF t, s1)
      | (.div, s1) => (.div, s1))
  | l, r =>
    .Pure (fun a s =>
      match run l a s with
      | (.ret mb, s1) =>
        eitherChain mb (fun b s2 =>
          match run r a s2 with
          | (.ret mc, s3) => (.ret (eitherMap mc (fun c => f (b, c))), s3)
          | (.throwF t, s3) => (.throwF t, s3)
          | (.div, s3) => (.div, s3)) s1
      | (.throwF t, s1) => (.throwF t, s1)
      | (.div, s1) => (.div, s1))

/-- `test(M)(cond)` of `kleisli-io.ts`:
`cond.both(identity()).andThen(liftK(p => p.1 ? left(p.2) : right(p.2)))`,
where `both` is `zipWith` with the pairing function. -/
def test (cond : KArrow σ E A Bool) : KArrow σ E A (A ⊕ A) :=
  composeK
    (liftK (pureFn (fun p : Bool × A => if p.1 then .inl p.2 else .inr p.2)))
    (zipWith cond identity (fun x => x))

/-- `ifThenElse(M)(cond)(then)(else_)` of `kleisli-io.ts`: fused to a
single `Impure` node when all three are `Impure`; otherwise
`test(cond).andThen(switchK(then, else_))`. -/
def ifThenElse (cond : KArrow σ E A Bool) (thenA elseA : KArrow σ E A B) : KArrow σ E A B :=
  match cond, thenA, elseA with
  | .Impure cf, .Impure tf, .Impure ef =>
    .Impure (fun a s =>
      match cf a s with
      | (.ret true, s1) => tf a s1
      | (.ret false, s1) => ef a s1
      | (.throwF t, s1) => (.throwF t, s1)
      | (.div, s1) => (.div, s1))
  | c, t, e => composeK (switchK t e) (test c)

/-- The imperative loop built by the fused path of
`whileDo(M)(cond)(body)`:
`a0 => { let a = a0; while (cond._run(a)) { a = body._run(a); } return a; }`.
The fuel bounds the number of iterations the model observes; running out
of fuel is reported as divergence. -/
def whileImp (cf : ImpFn σ E A Bool) (bf : ImpFn σ E A A) : Nat → ImpFn σ E A A
  | 0 => fun _ s => (.div, s)
  | fuel + 1 => fun a s =>
    match cf a s with
    | (.ret true, s1) =>
      match bf a s1 with
      | (.ret a2, s2) => whileImp cf bf fuel a2 s2
      | (.throwF t, s2) => (.throwF t, s2)
      | (.div, s2) => (.div, s2)
    | (.ret false, s1) => (.ret a, s1)
    | (.throwF t, s1) => (.throwF t, s1)
    | (.div, s1) => (.div, s1)

/-- The self-referential arrow built by the unfused path of
`whileDo(M)(cond)(body)`:
`loop() = pure(a => M.chain(cond.run(a), b => b ? M.chain(body.run(a), loop().run) : M.of(a)))`.
Each recursive materialization of `loop()` consumes one unit of fuel. -/
def whileUnf (cond : KArrow σ E A Bool) (body : KArrow σ E A A) : Nat → KArrow σ E A A
  | 0 => .Pure (fun _ s => (.div, s))
  | fuel + 1 => .Pure (fun a s =>
    match run cond a s with
    | (.ret mb, s1) =>
      eitherChain mb (fun b s2 =>
        if b then
          match run body a s2 with
          | (.ret ma, s3) => eitherChain ma (fun a2 => run (whileUnf cond body fuel) a2) s3
          | (.throwF t, s3) => (.throwF t, s3)
          | (.div, s3) => (.div, s3)
        else (.ret (.ok a), s2)) s1
    | (.throwF t, s1) => (.throwF t, s1)
    | (.div, s1) => (.div, s1))

/-- `whileDo(M)(cond)(body)` of `kleisli-io.ts`: an `Impure` node
running a native loop when both `cond` and `body` are `Impure`,
otherwise the self-referential arrow built through the effect context. -/
def whileDo (fuel : Nat) : KArrow σ E A Bool → KArrow σ E A A → KArrow σ E A A
  | .Impure cf, .Impure bf => .Impure (whileImp cf bf fuel)
  | cond, body => whileUnf cond body fuel

/-- Model of a catcher argument of `impure`.  A catcher is a JavaScript
function from the caught value to `E` or `undefined`; the model takes
its value behavior (`val` — deterministic in the caught value: return
`some e`, return `none` for `undefined`, or raise) together with its
per-invocation effect on the state (`eff`), which makes the number of
invocations observable. -/
structure Catcher (σ E : Type) : Type where
  val : Fault E → JsRes E (Option E)
  eff : σ → σ

/-- The function built by `impure(M)(catcher)(f)` around `f`:
`try { return f(a); } catch (error) { if (catcher(error) !== undefined) { throw new KleisliIOError(catcher(error)); } throw error; }`.
When `f` raises and the catcher yields a defined value, the catcher is
invoked twice — once for the test and once to build the wrapped domain
error; when it yields `undefined` the original value is re-raised; when
the catcher itself raises, that raise propagates. -/
def impureWrap (c : Catcher σ E) (f : ImpFn σ E A B) : ImpFn σ E A B :=
  fun a s =>
    match f a s with
    | (.ret b, s1) => (.ret b, s1)
    | (.div, s1) => (.div, s1)
    | (.throwF err, s1) =>
      match c.val err with
      | .ret (some e) => (.throwF (.kleisliErr e), c.eff (c.eff s1))
      | .ret none => (.throwF err, c.eff s1)
      | .throwF t => (.throwF t, c.eff s1)
      | .div => (.div, c.eff s1)

/-- `impure(M)(catcher)(f)` of `kleisli-io.ts`. -/
def impure (c : Catcher σ E) (f : ImpFn σ E A B) : KArrow σ E A B :=
  .Impure (impureWrap c f)

/-- `voidCatcher` of `kleisli-io.ts`: `e => { throw e; }` — raises the
caught value back, with no other effect. -/
def voidCatcher : Catcher σ E :=
  ⟨fun err => .throwF err, fun s => s⟩

/-- `impureVoid(M)(f)` of `kleisli-io.ts`: `impure(voidCatcher)(f)`. -/
def impureVoid (f : ImpFn σ E A B) : KArrow σ E A B :=
  impure voidCatcher f

/-- The left channel of the legacy `src/index.ts` interpretation: a
genuine domain error of type `E` produced from a caught
`KleisliIOError`, or a raw fault smuggled into the channel by the
unchecked cast `e as E`. -/
inductive CastE (E : Type) : Type
  | genuine : E → CastE E
  | cast : Nat → CastE E
  deriving DecidableEq

/-- `Impure.run` of the legacy `src/index.ts`:
`tryCatch2v(() => this._run(a), e => e instanceof KleisliIOError ? e.error : e as E)`.
`tryCatch2v` catches every raised value, so a raised `KleisliIOError`
becomes a `left` with its carried error and any other raised value is
returned as a `left` holding the raw fault cast to `E`. -/
def runTS1 (f : ImpFn σ E A B) (a : A) (s : σ) : JsRes (CastE E) (Except (CastE E) B) × σ :=
  match f a s with
  | (.ret b, s1) => (.ret (.ok b), s1)
  | (.throwF (.kleisliErr e), s1) => (.ret (.error (.genuine e)), s1)
  | (.throwF (.raw d), s1) => (.ret (.error (.cast d)), s1)
  | (.div, s1) => (.div, s1)

/-- The arrow representation of the `Monad1`-based `BiKleisli` class
(`src/unnamed/part_001`), instantiated at the fp-ts `identity` monad
(the instantiation used by the repository test for this family), where
`Kind<F, B>` is just `B`. -/
inductive BiKArrow (σ E : Type) : Type → Type → Type 1
  | Pure : {A B : Type} → ImpFn σ E A B → BiKArrow σ E A B
  | Impure : {A B : Type} → ImpFn σ E A B → BiKArrow σ E A B
  | Compose : {A B C : Type} → BiKArrow σ E B C → BiKArrow σ E A B → BiKArrow σ E A C

/-- The `run` interpretation of the `Monad1`-based `BiKleisli` at the
identity monad.  `Impure.run` is `const b = this._run(a); return this.M.of(b);`
with no try/catch at all, so every raised value — tagged domain errors
included — escapes; `Compose.run` is `M.chain(f.run(a), g.run)`, which
for the identity monad applies `g.run` to the result. -/
def runBi : BiKArrow σ E A B → A → σ → JsRes E B × σ
  | .Pure f, a, s => f a s
  | .Impure f, a, s =>
    match f a s with
    | (.ret b, s1) => (.ret b, s1)
    | (.throwF t, s1) => (.throwF t, s1)
    | (.div, s1) => (.div, s1)
  | .Compose g f, a, s =>
    match runBi f a s with
    | (.ret b, s1) => runBi g b s1
    | (.throwF t, s1) => (.throwF t, s1)
    | (.div, s1) => (.div, s1)

/-- `composeK(M, W)(second, first)` of `src/unnamed/part_001`: fused to
an `Impure` node with the composed function when both operands are
`Impure`, otherwise a `Compose` node. -/
def composeKBi : BiKArrow σ E B C → BiKArrow σ E A B → BiKArrow σ E A C
  | .Impure g, .Impure f => .Impure (jsComp g f)
  | g, f => .Compose g f

/-- `impure(M, W)(catcher)(f)` of `src/unnamed/part_001`; the wrapper
code is identical to the one of `kleisli-io.ts`, so the model reuses
`impureWrap`. -/
def impureBi (c : Catcher σ E) (f : ImpFn σ E A B) : BiKArrow σ E A B :=
  .Impure (impureWrap c f)

/-! Concrete instances used by the closed evidence theorems below.  The
state `σ` is a `Nat` counter recording how often an instrumented
function has executed; domain errors are strings. -/

/-- A function that raises a raw, untagged fault (code 7). -/
def throwRaw7 : ImpFn Nat String Unit Nat := fun _ s => (.throwF (.raw 7), s)

/-- A function that raises a raw, untagged fault (code 3). -/
def throwRaw3 : ImpFn Nat String Unit Nat := fun _ s => (.throwF (.raw 3), s)

/-- A function that raises a raw, untagged fault (code 5). -/
def throwRaw5 : ImpFn Nat String Unit Nat := fun _ s => (.throwF (.raw 5), s)

/-- A catcher that classifies the raw fault 3 as the domain error
"three" and yields `undefined` on everything else; each invocation bumps
the state counter. -/
def catchRaw3 : Catcher Nat String :=
  ⟨fun err =>
    match err with
    | .raw 3 => .ret (some "three")
    | _ => .ret none,
   fun s => s + 1⟩

/-- `liftK` of an instrumented function returning 1; each execution
bumps the state counter. -/
def countOne : KArrow Nat String Unit Nat := liftK (fun _ s => (.ret 1, s + 1))

/-- A `Pure` arrow returning its numeric input. -/
def pureId : KArrow Nat String Nat Nat := .Pure (fun n s => (.ret (.ok n), s))

/-- The `Pure` arrow of the spec example: succeeds with the input string
when it is non-empty, otherwise signals the domain error "empty". -/
def nonEmptyCheck : KArrow Nat String String String :=
  pure (fun str s => (.ret (if str.length > 0 then .ok str else .error "empty"), s))

/-- `liftK` of an instrumented length function; each execution bumps the
state counter. -/
def countLen : KArrow Nat String String Nat := liftK (fun str s => (.ret str.length, s + 1))

/-- The underlying function of the loop condition `n => n < 10`. -/
def condLt10Fn : ImpFn Nat String Nat Bool := pureFn (fun n => decide (n < 10))

/-- The underlying function of the loop body `n => n + 1`, instrumented:
each execution bumps the state counter. -/
def bodyIncrFn : ImpFn Nat String Nat Nat := fun n s => (.ret (n + 1), s + 1)

/-- `liftK(n => n < 10)`. -/
def condLt10 : KArrow Nat String Nat Bool := liftK condLt10Fn

/-- `liftK(n => n + 1)`, instrumented. -/
def bodyIncr : KArrow Nat String Nat Nat := liftK bodyIncrFn

/-- Model of the JavaScript `s.toUpperCase()`: uppercase every
character. -/
def jsToUpperCase (s : String) : String := ⟨s.data.map Char.toUpper⟩

/-- `liftK(s => s.toUpperCase())`. -/
def strUpper : KArrow Unit String String String := liftK (pureFn jsToUpperCase)

/-- `liftK(s => s.length)`. -/
def strLen : KArrow Unit String String Nat := liftK (pureFn String.length)

/-! Theorems.  First, unfolding equations for `run` on each node shape,
used throughout the case analyses below. -/

theorem run_Pure_eq (f : ImpFn σ E A (Except E B)) (a : A) (s : σ) :
    run (.Pure f) a s = f a s := rfl

theorem run_Impure_eq (f : ImpFn σ E A B) (a : A) (s : σ) :
    run (.Impure f) a s =
      match f a s with
      | (.ret b, s1) => (.ret (.ok b), s1)
      | (.throwF (.kleisliErr e), s1) => (.ret (.error e), s1)
      | (.throwF (.raw d), s1) => (.throwF (.raw d), s1)
      | (.div, s1) => (.div, s1) := rfl

theorem run_Compose_eq (g : KArrow σ E B C) (f : KArrow σ E A B) (a : A) (s : σ) :
    run (.Compose g f) a s =
      match run f a s with
      | (.ret mb, s1) => eitherChain mb (fun b => run g b) s1
      | (.throwF t, s1) => (.throwF t, s1)
      | (.div, s1) => (.div, s1) := rfl

/-- When the interpretation of an arrow returns the failure `e`, an
`Impure` arrow must have raised `kleisliErr e` from its underlying
function. -/
theorem run_Impure_error_inv (f : ImpFn σ E A B) (a : A) (s : σ) (e : E) (s1 : σ)
    (h : run (.Impure f) a s = (.ret (.error e), s1)) :
    f a s = (.throwF (.kleisliErr e), s1) := by
  rw [run_Impure_eq] at h
  rcases hf : f a s with ⟨rb, s2⟩
  rw [hf] at h
  cases rb with
  | ret b => simp at h
  | throwF t =>
    cases t with
    | kleisliErr e2 =>
      simp only [Prod.mk.injEq, JsRes.ret.injEq, Except.error.injEq] at h
      obtain ⟨rfl, rfl⟩ := h
      rfl
    | raw d => simp at h
  | div => simp at h

/-- C1: the claim is right and `src/index.ts` is wrong.  First conjunct:
in the legacy `src/index.ts` interpretation, a function wrapped with
`impureVoid` that raises a raw fault has that fault RETURNED by `run` as
a failure value of the error channel (a `left` holding the fault cast to
`E` by the unchecked cast `e as E`), not propagated as a native fault —
the defect is converted, contradicting the claim, the doc comment of
`impureVoid`, and the behavior asserted by the test-suite.  Second
conjunct: the parameterized `kleisli-io.ts` interpretation of the very
same wrapped function propagates the raw fault out of `run`, exactly as
the claim states. -/
theorem impureVoid_defect_outcome :
    runTS1 (impureWrap voidCatcher throwRaw7) () 0 = (.ret (.error (.cast 7)), 0)
    ∧ run (.Impure (impureWrap voidCatcher throwRaw7)) () 0
        = ((.throwF (.raw 7) : JsRes String (Except String Nat)), 0) :=
  ⟨rfl, rfl⟩

/-- C4: fusion transparency.  Running the fused composition of two
`Impure` arrows is observationally identical — same outcome, same final
state — to running them sequentially through a `Compose` node, for every
pair of underlying functions, every input and every starting state; and
at the concrete spec example, `composeK(liftK(s => s.length), liftK(s => s.toUpperCase()))`
run on "ab" yields the success value 2. -/
theorem composeK_fusion_transparency :
    (∀ {σ E A B C : Type} (gp : ImpFn σ E B C) (fp : ImpFn σ E A B) (a : A) (s : σ),
      run (composeK (.Impure gp) (.Impure fp)) a s
        = run (.Compose (.Impure gp) (.Impure fp)) a s)
    ∧ run (composeK strLen strUpper) "ab" () = (.ret (.ok 2), ()) := by
  constructor
  · intro σ E A B C gp fp a s
    rcases hf : fp a s with ⟨rb, s1⟩
    cases rb with
    | ret b =>
      rcases hg : gp b s1 with ⟨rc, s2⟩
      cases rc with
      | ret c => simp [run, composeK, jsComp, eitherChain, hf, hg]
      | throwF t => cases t <;> simp [run, composeK, jsComp, eitherChain, hf, hg]
      | div => simp [run, composeK, jsComp, eitherChain, hf, hg]
    | throwF t => cases t <;> simp [run, composeK, jsComp, eitherChain, hf]
    | div => simp [run, composeK, jsComp, eitherChain, hf]
  · rfl

/-- C8: monad left identity.  `of(b).chain(k)` run on any input and any
starting state gives the same result as `k(b)` run there; the modelled
effect context (fp-ts `either`) satisfies the monad laws, discharging
the hypothesis of the claim. -/
theorem of_chain_left_identity :
    ∀ {σ E A B C : Type} (b : B) (k : B → KArrow σ E A C) (a : A) (s : σ),
      run (chain (of b) k) a s = run (k b) a s := by
  intro σ E A B C b k a s
  rfl

/-- C5: domain-error short-circuiting.  When `f` signals a domain error
`e` on input `a` (leaving state `s1`), `composeK(g, f)` signals that
same error with the same final state, for every `g` — so the underlying
function of `g` never executes (the conclusion does not depend on `g`,
and the state is exactly the one `f` left).  The same holds for
`chain(fa, k)` with respect to `k`, and for `switchK(l, r)` when the
input selects the failing branch. -/
theorem domain_error_short_circuit :
    (∀ {σ E A B C : Type} (g : KArrow σ E B C) (f : KArrow σ E A B)
        (a : A) (s : σ) (e : E) (s1 : σ),
      run f a s = (.ret (.error e), s1) →
      run (composeK g f) a s = (.ret (.error e), s1))
    ∧ (∀ {σ E A B C : Type} (fa : KArrow σ E A B) (k : B → KArrow σ E A C)
        (a : A) (s : σ) (e : E) (s1 : σ),
      run fa a s = (.ret (.error e), s1) →
      run (chain fa k) a s = (.ret (.error e), s1))
    ∧ (∀ {σ E A B C : Type} (l : KArrow σ E A B) (r : KArrow σ E C B)
        (al : A) (s : σ) (e : E) (s1 : σ),
      run l al s = (.ret (.error e), s1) →
      run (switchK l r) (Sum.inl al) s = (.ret (.error e), s1)) := by
  refine ⟨?_, ?_, ?_⟩
  · intro σ E A B C g f a s e s1 h
    cases g with
    | Impure gp =>
      cases f with
      | Impure fp =>
        have hf := run_Impure_error_inv fp a s e s1 h
        simp [composeK, run_Impure_eq, jsComp, hf]
      | Pure fp => simp [composeK, run_Compose_eq, h, eitherChain]
      | Compose g2 f2 => simp [composeK, run_Compose_eq, h, eitherChain]
    | Pure gp => simp [composeK, run_Compose_eq, h, eitherChain]
    | Compose g2 f2 => simp [composeK, run_Compose_eq, h, eitherChain]
  · intro σ E A B C fa k a s e s1 h
    simp [chain, run_Pure_eq, h, eitherChain]
  · intro σ E A B C l r al s e s1 h
    cases l with
    | Impure lp =>
      cases r with
      | Impure rp =>
        have hl := run_Impure_error_inv lp al s e s1 h
        simp [switchK, run_Impure_eq, hl]
      | Pure rp => simp only [switchK, run_Pure_eq]; exact h
      | Compose g2 f2 => simp only [switchK, run_Pure_eq]; exact h
    | Pure lp => simp only [switchK, run_Pure_eq]; exact h
    | Compose g2 f2 => simp only [switchK, run_Pure_eq]; exact h

/-- C5 witness: with the spec example `f` (fail with "empty" on an empty
string) and an instrumented `g`, the composite, the chain and the switch
all yield the "empty" failure on input "", and the counter stays 0 — no
later step ran. -/
theorem domain_error_short_circuit_witness :
    run (composeK countLen nonEmptyCheck) "" 0 = (.ret (.error "empty"), 0)
    ∧ run (chain nonEmptyCheck (fun _ => countLen)) "" 0 = (.ret (.error "empty"), 0)
    ∧ run (switchK nonEmptyCheck nonEmptyCheck) (Sum.inl "") 0 = (.ret (.error "empty"), 0) :=
  ⟨domain_error_short_circuit.1 countLen nonEmptyCheck "" 0 "empty" 0 rfl,
   domain_error_short_circuit.2.1 nonEmptyCheck (fun _ => countLen) "" 0 "empty" 0 rfl,
   domain_error_short_circuit.2.2 nonEmptyCheck nonEmptyCheck "" 0 "empty" 0 rfl⟩

/-- C7: `chain(fa, k)` runs `fa` on the input `a`; on success with value
`b` it runs `k(b)` on the same original input `a` (and in the state `fa`
left), not on `b`; a domain error from `fa` is returned as-is, for every
`k` — so `k` is never invoked. -/
theorem chain_original_input :
    (∀ {σ E A B C : Type} (fa : KArrow σ E A B) (k : B → KArrow σ E A C)
        (a : A) (s : σ) (b : B) (s1 : σ),
      run fa a s = (.ret (.ok b), s1) →
      run (chain fa k) a s = run (k b) a s1)
    ∧ (∀ {σ E A B C : Type} (fa : KArrow σ E A B) (k : B → KArrow σ E A C)
        (a : A) (s : σ) (e : E) (s1 : σ),
      run fa a s = (.ret (.error e), s1) →
      run (chain fa k) a s = (.ret (.error e), s1)) := by
  constructor
  · intro σ E A B C fa k a s b s1 h
    simp [chain, run, h, eitherChain]
  · intro σ E A B C fa k a s e s1 h
    simp [chain, run, h, eitherChain]

/-- C7 witness: chaining the successful `nonEmptyCheck` on "hi" with a
continuation producing the pair of the received input and the received
value yields the pair ("hi", "hi") — the continuation ran on the
original input; and a failing first arrow short-circuits. -/
theorem chain_original_input_witness :
    run (chain nonEmptyCheck (fun b => liftK (fun a s => (.ret (a, b), s)))) "hi" 0
      = (.ret (.ok ("hi", "hi")), 0)
    ∧ run (chain nonEmptyCheck (fun _ => countLen)) "" 5 = (.ret (.error "empty"), 5) :=
  ⟨chain_original_input.1 nonEmptyCheck (fun b => liftK (fun a s => (.ret (a, b), s)))
      "hi" 0 "hi" 0 rfl,
   chain_original_input.2 nonEmptyCheck (fun _ => countLen) "" 5 "empty" 5 rfl⟩

/-- C2 counterexample: the claim states that on the fused
(`Impure`+`Impure`) path both underlying functions always execute even
when `l` signals a domain error.  Here `l = fail "e"` and `r` is an
instrumented `Impure` arrow that bumps the state counter on every
execution.  Running the fused `zipWith` leaves the counter at 0: the
underlying function of `r` never executed, because the domain error is
raised as an exception by the function of `l` and aborts the fused
expression `f([l._run(a), r._run(a)])` before `r._run(a)` is reached. -/
theorem zipWith_fused_skips_right_cex :
    run (zipWith (fail "e") countOne (fun p => p.1 + p.2)) () 0
      = (.ret (.error "e"), 0) := rfl

/-- C2 amended: the fused `zipWith` evaluates left-then-right, but a
domain error raised by the function of `l` aborts the fused expression
before the function of `r` starts (the result does not depend on `rf`,
and the final state is the one `lf` left) — the same short-circuit as
the unfused path; both sides execute exactly when `l` succeeds. -/
theorem zipWith_error_evaluation_order :
    (∀ {σ E A B C D : Type} (lf : ImpFn σ E A B) (rf : ImpFn σ E A C) (f : B × C → D)
        (a : A) (s : σ) (e : E) (s1 : σ),
      lf a s = (.throwF (.kleisliErr e), s1) →
      run (zipWith (.Impure lf) (.Impure rf) f) a s = (.ret (.error e), s1))
    ∧ (∀ {σ E A B C D : Type} (lf : ImpFn σ E A B) (rf : ImpFn σ E A C) (f : B × C → D)
        (a : A) (s : σ) (b : B) (s1 : σ) (c : C) (s2 : σ),
      lf a s = (.ret b, s1) → rf a s1 = (.ret c, s2) →
      run (zipWith (.Impure lf) (.Impure rf) f) a s = (.ret (.ok (f (b, c))), s2))
    ∧ (∀ {σ E A B C D : Type} (l : KArrow σ E A B) (r : KArrow σ E A C) (f : B × C → D)
        (a : A) (s : σ) (e : E) (s1 : σ),
      (tag l ≠ Tag.Impure ∨ tag r ≠ Tag.Impure) →
      run l a s = (.ret (.error e), s1) →
      run (zipWith l r f) a s = (.ret (.error e), s1)) := by
  refine ⟨?_, ?_, ?_⟩
  · intro σ E A B C D lf rf f a s e s1 h
    simp [zipWith, run_Impure_eq, h]
  · intro σ E A B C D lf rf f a s b s1 c s2 hl hr
    simp [zipWith, run_Impure_eq, hl, hr]
  · intro σ E A B C D l r f a s e s1 hne h
    cases l with
    | Impure lp =>
      cases r with
      | Impure rp => simp [tag] at hne
      | Pure rp => simp [zipWith, run_Pure_eq, h, eitherChain]
      | Compose g2 f2 => simp [zipWith, run_Pure_eq, h, eitherChain]
    | Pure lp =>
      rw [run_Pure_eq] at h
      cases r with
      | Impure rp => simp [zipWith, run_Pure_eq, h, eitherChain]
      | Pure rp => simp [zipWith, run_Pure_eq, h, eitherChain]
      | Compose g2 f2 => simp [zipWith, run_Pure_eq, h, eitherChain]
    | Compose g2 f2 =>
      cases r with
      | Impure rp => simp [zipWith, run_Pure_eq, h, eitherChain]
      | Pure rp => simp [zipWith, run_Pure_eq, h, eitherChain]
      | Compose g3 f3 => simp [zipWith, run_Pure_eq, h, eitherChain]

/-- C2 witness: the three parts of the amended statement at concrete
instrumented inputs — the fused error case (counter left at 0), the
fused success case (counter bumped by both sides), and the unfused
short-circuit with a `Pure` left operand. -/
theorem zipWith_error_evaluation_order_witness :
    run (zipWith (fail "boom") countOne (fun p => p.1 + p.2)) () 3
      = (.ret (.error "boom"), 3)
    ∧ run (zipWith countOne countOne (fun p => p.1 + p.2)) () 0 = (.ret (.ok 2), 2)
    ∧ run (zipWith nonEmptyCheck countLen (fun p => p.2)) "" 0
      = (.ret (.error "empty"), 0) :=
  ⟨zipWith_error_evaluation_order.1 (fun _ s => (.throwF (.kleisliErr "boom"), s))
      (fun _ s => (.ret 1, s + 1)) (fun p => p.1 + p.2) () 3 "boom" 3 rfl,
   zipWith_error_evaluation_order.2.1 (fun _ s => (.ret 1, s + 1))
      (fun _ s => (.ret 1, s + 1)) (fun p => p.1 + p.2) () 0 1 1 1 2 rfl rfl,
   zipWith_error_evaluation_order.2.2 nonEmptyCheck countLen (fun p => p.2) "" 0
      "empty" 0 (Or.inl (by decide)) rfl⟩

/-- C3 counterexample: the claim states that the combinators yield a
`Compose` node whenever the operands are not both `Impure`; but
`switchK` of two `Pure` operands yields a `Pure` node, not a `Compose`
node. -/
theorem switchK_unfused_is_pure_cex :
    tag (switchK pureId pureId) = Tag.Pure
    ∧ tag (switchK pureId pureId) ≠ Tag.Compose :=
  ⟨rfl, by decide⟩

/-- C3 amended: `composeK` yields an `Impure` node whose function is the
ordinary (JavaScript) composition of the two underlying functions when
both operands are `Impure`, and a `Compose` node otherwise; the
combinators built atop composition preserve the fusion: `switchK`,
`zipWith` and the `whileDo` fast path yield an `Impure`-tagged arrow
when their arrow operands are all `Impure`, while the unfused `switchK`
and `zipWith` yield a `Pure` node (not a `Compose` node). -/
theorem composeK_fusion_invariant :
    (∀ {σ E A B C : Type} (g : ImpFn σ E B C) (f : ImpFn σ E A B),
      composeK (.Impure g) (.Impure f) = .Impure (jsComp g f))
    ∧ (∀ {σ E A B C : Type} (g : KArrow σ E B C) (f : KArrow σ E A B),
      ¬(tag g = Tag.Impure ∧ tag f = Tag.Impure) → composeK g f = .Compose g f)
    ∧ (∀ {σ E A B C : Type} (l : ImpFn σ E A B) (r : ImpFn σ E C B),
      tag (switchK (.Impure l) (.Impure r)) = Tag.Impure)
    ∧ (∀ {σ E A B C : Type} (l : KArrow σ E A B) (r : KArrow σ E C B),
      ¬(tag l = Tag.Impure ∧ tag r = Tag.Impure) → tag (switchK l r) = Tag.Pure)
    ∧ (∀ {σ E A B C D : Type} (l : ImpFn σ E A B) (r : ImpFn σ E A C) (f : B × C → D),
      tag (zipWith (.Impure l) (.Impure r) f) = Tag.Impure)
    ∧ (∀ {σ E A B C D : Type} (l : KArrow σ E A B) (r : KArrow σ E A C) (f : B × C → D),
      ¬(tag l = Tag.Impure ∧ tag r = Tag.Impure) → tag (zipWith l r f) = Tag.Pure)
    ∧ (∀ {σ E A : Type} (cf : ImpFn σ E A Bool) (bf : ImpFn σ E A A) (fuel : Nat),
      tag (whileDo fuel (.Impure cf) (.Impure bf)) = Tag.Impure) := by
  refine ⟨?_, ?_, ?_, ?_, ?_, ?_, ?_⟩
  · intro σ E A B C g f
    rfl
  · intro σ E A B C g f hne
    cases g with
    | Impure gp =>
      cases f with
      | Impure fp => exact absurd ⟨rfl, rfl⟩ hne
      | Pure fp => rfl
      | Compose g2 f2 => rfl
    | Pure gp => cases f <;> rfl
    | Compose g2 f2 => cases f <;> rfl
  · intro σ E A B C l r
    rfl
  · intro σ E A B C l r hne
    cases l with
    | Impure lp =>
      cases r with
      | Impure rp => exact absurd ⟨rfl, rfl⟩ hne
      | Pure rp => rfl
      | Compose g2 f2 => rfl
    | Pure lp => cases r <;> rfl
    | Compose g2 f2 => cases r <;> rfl
  · intro σ E A B C D l r f
    rfl
  · intro σ E A B C D l r f hne
    cases l with
    | Impure lp =>
      cases r with
      | Impure rp => exact absurd ⟨rfl, rfl⟩ hne
      | Pure rp => rfl
      | Compose g2 f2 => rfl
    | Pure lp => cases r <;> rfl
    | Compose g2 f2 => cases r <;> rfl
  · intro σ E A cf bf fuel
    rfl

/-- C3 witness: the hypotheses of the amended statement discharged at
concrete arrows — a `Pure`/`Pure` composition yields a `Compose` node,
and unfused `switchK` and `zipWith` of these arrows are tagged `Pure`. -/
theorem composeK_fusion_invariant_witness :
    composeK pureId pureId = .Compose pureId pureId
    ∧ tag (switchK pureId pureId) = Tag.Pure
    ∧ tag (zipWith pureId pureId (fun p : Nat × Nat => p.1)) = Tag.Pure :=
  ⟨composeK_fusion_invariant.2.1 pureId pureId (by decide),
   composeK_fusion_invariant.2.2.2.1 pureId pureId (by decide),
   composeK_fusion_invariant.2.2.2.2.2.1 pureId pureId (fun p => p.1) (by decide)⟩

/-- A run of the fused loop that finishes (no divergence) is unaffected
by granting more fuel. -/
theorem whileImp_fuel_mono (cf : ImpFn σ E A Bool) (bf : ImpFn σ E A A) :
    ∀ (n : Nat) (a : A) (s : σ) (out : JsRes E A × σ),
      whileImp cf bf n a s = out → out.1 ≠ .div →
      ∀ k : Nat, whileImp cf bf (n + k) a s = out := by
  intro n
  induction n with
  | zero =>
    intro a s out h hnd k
    rw [whileImp] at h
    rw [← h] at hnd
    simp at hnd
  | succ m ih =>
    intro a s out h hnd k
    have hsum : m + 1 + k = (m + k) + 1 := by omega
    rw [hsum]
    simp only [whileImp] at h ⊢
    rcases hc : cf a s with ⟨rb, s1⟩
    rw [hc] at h
    cases rb with
    | ret b =>
      cases b with
      | true =>
        simp only at h ⊢
        rcases hb : bf a s1 with ⟨ra, s2⟩
        rw [hb] at h
        cases ra with
        | ret a2 => exact ih a2 s2 out h hnd k
        | throwF t => exact h
        | div => exact h
      | false => exact h
    | throwF t => exact h
    | div => exact h

/-- C6: `whileDo(n => n < 10)(n => n + 1)` run on 4 terminates: for
every sufficient fuel the result is the success value 10, and the final
state counter is 6 — the underlying function of the body executed
exactly 6 times. -/
theorem whileDo_terminates_and_counts :
    ∀ fuel : Nat, 7 ≤ fuel →
      run (whileDo fuel condLt10 bodyIncr) 4 0 = (.ret (.ok 10), 6) := by
  intro fuel h
  obtain ⟨k, rfl⟩ : ∃ k, fuel = 7 + k := ⟨fuel - 7, by omega⟩
  have hbase : whileImp condLt10Fn bodyIncrFn 7 4 0 = (.ret 10, 6) := by decide
  have hmono := whileImp_fuel_mono condLt10Fn bodyIncrFn 7 4 0 (.ret 10, 6) hbase
    (by decide) k
  show run (.Impure (whileImp condLt10Fn bodyIncrFn (7 + k))) 4 0 = _
  rw [run_Impure_eq, hmono]

/-- C6 witness: the smallest sufficient fuel. -/
theorem whileDo_terminates_and_counts_witness :
    run (whileDo 7 condLt10 bodyIncr) 4 0 = (.ret (.ok 10), 6) :=
  whileDo_terminates_and_counts 7 (by decide)

/-- C9: classification of a raised fault by `impure(catcher)(f)`.  Given
that `f` raises `err`: if the catcher yields `undefined` without
raising, the original fault propagates unmodified (one catcher
invocation — one state effect); if the catcher yields a defined value
`e`, the catcher is invoked twice (the state receives the effect twice)
and the wrapped domain error carries exactly `e`; and the
yields-undefined outcome is identical to the outcome with a catcher
that raises the caught fault back (as `voidCatcher` does). -/
theorem impure_catcher_classification :
    ∀ {σ E A B : Type} (c : Catcher σ E) (f : ImpFn σ E A B) (a : A) (s : σ)
      (err : Fault E) (s1 : σ), f a s = (.throwF err, s1) →
      ((c.val err = .ret none → impureWrap c f a s = (.throwF err, c.eff s1))
       ∧ (∀ e : E, c.val err = .ret (some e) →
          impureWrap c f a s = (.throwF (.kleisliErr e), c.eff (c.eff s1)))
       ∧ (c.val err = .ret none →
          impureWrap c f a s = impureWrap ⟨fun x => .throwF x, c.eff⟩ f a s)) := by
  intro σ E A B c f a s err s1 h
  refine ⟨?_, ?_, ?_⟩
  · intro hv
    simp [impureWrap, h, hv]
  · intro e hv
    simp [impureWrap, h, hv]
  · intro hv
    simp [impureWrap, h, hv]

/-- C9 witness: `catchRaw3` classifies the raw fault 3 as the domain
error "three" (two invocations: counter goes from 0 to 2) and yields
`undefined` on the raw fault 5, which then propagates unmodified after a
single invocation — the same outcome as a catcher raising the caught
fault back. -/
theorem impure_catcher_classification_witness :
    impureWrap catchRaw3 throwRaw3 () 0 = (.throwF (.kleisliErr "three"), 2)
    ∧ impureWrap catchRaw3 throwRaw5 () 0 = (.throwF (.raw 5), 1)
    ∧ impureWrap catchRaw3 throwRaw5 () 0
        = impureWrap ⟨fun x => .throwF x, catchRaw3.eff⟩ throwRaw5 () 0 :=
  ⟨(impure_catcher_classification catchRaw3 throwRaw3 () 0 (.raw 3) 0 rfl).2.1
      "three" rfl,
   (impure_catcher_classification catchRaw3 throwRaw5 () 0 (.raw 5) 0 rfl).1 rfl,
   (impure_catcher_classification catchRaw3 throwRaw5 () 0 (.raw 5) 0 rfl).2.2 rfl⟩

/-- C10: in the `Monad1`-based representation (identity-monad
instantiation), `Impure.run` installs no handler: whatever fault the
underlying function raises — tagged or raw — escapes `run` with the
state the function left, rather than appearing in the returned context
value; in particular a tagged domain error produced by a fused
`impure`-built step escapes the composed arrow as a native fault. -/
theorem bikleisli_impure_run_no_handler :
    (∀ {σ E A B : Type} (f : ImpFn σ E A B) (a : A) (s : σ) (t : Fault E) (s1 : σ),
      f a s = (.throwF t, s1) → runBi (.Impure f) a s = (.throwF t, s1))
    ∧ (∀ {σ E A B C : Type} (c : Catcher σ E) (f : ImpFn σ E A B) (g : ImpFn σ E B C)
        (a : A) (s : σ) (err : Fault E) (s1 : σ) (e : E),
      f a s = (.throwF err, s1) → c.val err = .ret (some e) →
      runBi (composeKBi (.Impure g) (impureBi c f)) a s
        = (.throwF (.kleisliErr e), c.eff (c.eff s1))) := by
  constructor
  · intro σ E A B f a s t s1 h
    simp [runBi, h]
  · intro σ E A B C c f g a s err s1 e h hv
    simp [composeKBi, impureBi, runBi, jsComp, impureWrap, h, hv]

/-- C10 witness: a raw fault escapes `runBi` of a bare `Impure` node
unchanged, and the tagged domain error built by the `impure` wrapper
escapes the fused composition as a native fault. -/
theorem bikleisli_impure_run_no_handler_witness :
    runBi (.Impure throwRaw3) () 0 = (.throwF (.raw 3), 0)
    ∧ runBi (composeKBi (.Impure (pureFn (fun n => n + 1))) (impureBi catchRaw3 throwRaw3)) () 0
        = (.throwF (.kleisliErr "three"), 2) :=
  ⟨bikleisli_impure_run_no_handler.1 throwRaw3 () 0 (.raw 3) 0 rfl,
   bikleisli_impure_run_no_handler.2 catchRaw3 throwRaw3 (pureFn (fun n => n + 1))
      () 0 (.raw 3) 0 "three" rfl rfl⟩

end KleisliTS
